import Mathlib

/-!
Verification development for the serial-stamp-web WASM renderer
(`src-wasm/src/lib.rs` and `src-wasm/src/ticket_renderer.rs`).

The Rust code is shallowly embedded:
* `f64`/`f32` arithmetic on physical measurements is modelled by exact
  rationals (`ℚ`); every concrete input used below stays far from any
  float rounding boundary.
* machine-integer casts (`as u32`, `as u8`, `as i32`) are modelled by
  explicit truncation/saturation on `ℕ`/`ℤ`.
* strings are modelled as `List Char`; a Rust `HashMap` together with its
  iteration order is modelled as an association list in iteration order.
-/

namespace SerialStamp

/-- `f64::round` in Rust: round half away from zero. -/
def rustRound (q : ℚ) : ℤ :=
  if 0 ≤ q then ⌊q + 1/2⌋ else -⌊-q + 1/2⌋

/-- Rust `as u32` applied to a nonnegative-or-clamped float value:
truncation toward zero, saturating at `0` and `u32::MAX`. -/
def rustAsU32 (q : ℚ) : ℕ :=
  min ⌊q⌋.toNat (2 ^ 32 - 1)

/-- Rust `f64.round() as u32`: round half away from zero, then saturate. -/
def rustRoundAsU32 (q : ℚ) : ℕ :=
  min (rustRound q).toNat (2 ^ 32 - 1)

/-- Rust `f32.ceil() as u32`. -/
def rustCeilAsU32 (q : ℚ) : ℕ :=
  min ⌈q⌉.toNat (2 ^ 32 - 1)

/-- Rust `f32 as u8`: truncation toward zero, saturating at `0` and `255`. -/
def rustAsU8 (q : ℚ) : ℕ :=
  min ⌊q⌋.toNat 255

/-- `SheetConfig` from `lib.rs` (all physical measurements in mm). -/
structure SheetConfig where
  paper_width_mm : ℚ
  paper_height_mm : ℚ
  rows : ℕ
  cols : ℕ
  margin_top_mm : ℚ
  margin_right_mm : ℚ
  margin_bottom_mm : ℚ
  margin_left_mm : ℚ
  spacing_x_mm : ℚ
  spacing_y_mm : ℚ

/-- `lib.rs` : `let pixels_per_mm = dpi / mm_per_inch;` with `mm_per_inch = 25.4`. -/
def pixelsPerMm (dpi : ℚ) : ℚ := dpi / 25.4

/-- `render_sheet`: `(config.paper_width_mm * pixels_per_mm).round() as u32`. -/
def sheetPageWidthPx (c : SheetConfig) (dpi : ℚ) : ℕ :=
  rustRoundAsU32 (c.paper_width_mm * pixelsPerMm dpi)

/-- `render_sheet`: `(config.paper_height_mm * pixels_per_mm).round() as u32`. -/
def sheetPageHeightPx (c : SheetConfig) (dpi : ℚ) : ℕ :=
  rustRoundAsU32 (c.paper_height_mm * pixelsPerMm dpi)

/-- `render_sheet`: `(config.margin_left_mm * pixels_per_mm).round() as u32`. -/
def sheetMarginLeftPx (c : SheetConfig) (dpi : ℚ) : ℕ :=
  rustRoundAsU32 (c.margin_left_mm * pixelsPerMm dpi)

/-- `render_sheet`: `(config.margin_top_mm * pixels_per_mm).round() as u32`. -/
def sheetMarginTopPx (c : SheetConfig) (dpi : ℚ) : ℕ :=
  rustRoundAsU32 (c.margin_top_mm * pixelsPerMm dpi)

/-- `render_sheet`: `(config.spacing_x_mm * pixels_per_mm).round() as u32`. -/
def sheetSpacingXPx (c : SheetConfig) (dpi : ℚ) : ℕ :=
  rustRoundAsU32 (c.spacing_x_mm * pixelsPerMm dpi)

/-- `render_sheet`: `(config.spacing_y_mm * pixels_per_mm).round() as u32`. -/
def sheetSpacingYPx (c : SheetConfig) (dpi : ℚ) : ℕ :=
  rustRoundAsU32 (c.spacing_y_mm * pixelsPerMm dpi)

/-- `generate_preview_png` hard-codes `dpi = 300.0` and converts the page
width with `(config.paper_width_mm * pixels_per_mm) as u32` (no `.round()`). -/
def previewPageWidthPx (c : SheetConfig) : ℕ :=
  rustAsU32 (c.paper_width_mm * pixelsPerMm 300)

/-- `generate_preview_png`: `(config.paper_height_mm * pixels_per_mm) as u32`. -/
def previewPageHeightPx (c : SheetConfig) : ℕ :=
  rustAsU32 (c.paper_height_mm * pixelsPerMm 300)

/-- `generate_preview_png`: `(config.margin_left_mm * pixels_per_mm) as u32`. -/
def previewMarginLeftPx (c : SheetConfig) : ℕ :=
  rustAsU32 (c.margin_left_mm * pixelsPerMm 300)

/-- `generate_preview_png`: `(config.margin_top_mm * pixels_per_mm) as u32`. -/
def previewMarginTopPx (c : SheetConfig) : ℕ :=
  rustAsU32 (c.margin_top_mm * pixelsPerMm 300)

/-- `generate_preview_png`: `(config.spacing_x_mm * pixels_per_mm) as u32`. -/
def previewSpacingXPx (c : SheetConfig) : ℕ :=
  rustAsU32 (c.spacing_x_mm * pixelsPerMm 300)

/-- `generate_preview_png`: `(config.spacing_y_mm * pixels_per_mm) as u32`. -/
def previewSpacingYPx (c : SheetConfig) : ℕ :=
  rustAsU32 (c.spacing_y_mm * pixelsPerMm 300)

/-- `render_sheet`: derived ticket width in mm,
`(paper_width - margin_left - margin_right - (cols-1)*spacing_x) / cols`
when `cols > 0`, else `0.0`. -/
def ticketWidthMm (c : SheetConfig) : ℚ :=
  if 0 < c.cols then
    (c.paper_width_mm - c.margin_left_mm - c.margin_right_mm
      - ((c.cols - 1 : ℕ) : ℚ) * c.spacing_x_mm) / (c.cols : ℚ)
  else 0

/-- `render_sheet`: derived ticket height in mm. -/
def ticketHeightMm (c : SheetConfig) : ℚ :=
  if 0 < c.rows then
    (c.paper_height_mm - c.margin_top_mm - c.margin_bottom_mm
      - ((c.rows - 1 : ℕ) : ℚ) * c.spacing_y_mm) / (c.rows : ℚ)
  else 0

/-- `render_sheet`'s configuration check, performed before any ticket is
rendered: `if ticket_width_mm <= 0.0 || ticket_height_mm <= 0.0 { return
Err("Invalid ticket dimensions") }`; on success the derived mm dimensions
flow into the rest of the pipeline. An `Except.error` models the early
`Err` return: no output bytes are produced. -/
def renderSheetTicketDims (c : SheetConfig) : Except String (ℚ × ℚ) :=
  if ticketWidthMm c ≤ 0 ∨ ticketHeightMm c ≤ 0 then
    .error "Invalid ticket dimensions"
  else
    .ok (ticketWidthMm c, ticketHeightMm c)

/-- `render_sheet`: `scale_x = target_ticket_width_px as f32 / template_width as f32`. -/
def templateScaleX (cellW tw : ℕ) : ℚ := (cellW : ℚ) / (tw : ℚ)

/-- `render_sheet`: `scale_y = target_ticket_height_px as f32 / template_height as f32`. -/
def templateScaleY (cellH th : ℕ) : ℚ := (cellH : ℚ) / (th : ℚ)

/-- `render_sheet`: `let scale = scale_x.min(scale_y);` (uniform scaling). -/
def templateScale (cellW cellH tw th : ℕ) : ℚ :=
  min (templateScaleX cellW tw) (templateScaleY cellH th)

/-- `render_sheet`: `(template_width as f32 * scale).round() as u32`. -/
def scaledTemplateWidth (cellW cellH tw th : ℕ) : ℕ :=
  rustRoundAsU32 ((tw : ℚ) * templateScale cellW cellH tw th)

/-- `render_sheet`: `(template_height as f32 * scale).round() as u32`. -/
def scaledTemplateHeight (cellW cellH tw th : ℕ) : ℕ :=
  rustRoundAsU32 ((th : ℚ) * templateScale cellW cellH tw th)

/-- `render_sheet`: `(target_ticket_width_px.saturating_sub(scaled_template_width)) / 2`
(`ℕ` subtraction is saturating, `ℕ` division floors). -/
def templateOffsetX (cellW cellH tw th : ℕ) : ℕ :=
  (cellW - scaledTemplateWidth cellW cellH tw th) / 2

/-- `render_sheet`: `(target_ticket_height_px.saturating_sub(scaled_template_height)) / 2`. -/
def templateOffsetY (cellW cellH tw th : ℕ) : ℕ :=
  (cellH - scaledTemplateHeight cellW cellH tw th) / 2

/-- `render_text_stamp`: horizontal drawing origin from the scaled anchor,
`match alignment { "center" => anchor - w/2, "right" => anchor - w, _ => anchor }`
(`text_width as i32 / 2` truncates; the width is nonnegative). -/
def textOriginX (anchorX : ℤ) (alignment : String) (textWidth : ℕ) : ℤ :=
  if alignment = "center" then anchorX - ((textWidth / 2 : ℕ) : ℤ)
  else if alignment = "right" then anchorX - (textWidth : ℤ)
  else anchorX

/-- `render_text_stamp`: vertical drawing origin,
`vertical_align.as_deref().unwrap_or("top")` then
`match { "middle" => anchor - h/2, "bottom" => anchor - h, _ => anchor }`. -/
def textOriginY (anchorY : ℤ) (verticalAlign : Option String) (textHeight : ℕ) : ℤ :=
  if verticalAlign.getD "top" = "middle" then anchorY - ((textHeight / 2 : ℕ) : ℤ)
  else if verticalAlign.getD "top" = "bottom" then anchorY - (textHeight : ℤ)
  else anchorY

/-- One RGBA pixel; `u8` channels are modelled as `ℕ` values (call sites keep
them `≤ 255`). -/
structure Pix where
  r : ℕ
  g : ℕ
  b : ℕ
  a : ℕ
deriving DecidableEq

/-- One channel of `blend_pixel` / `composite_image`:
`(src as f32 * alpha + dst as f32 * inv_alpha) as u8`. -/
def blendChannel (s d : ℕ) (alpha : ℚ) : ℕ :=
  rustAsU8 ((s : ℚ) * alpha + (d : ℚ) * (1 - alpha))

/-- `blend_pixel` from `ticket_renderer.rs` (also inlined in the two
`composite_image` copies and `generate_preview_png`): straight alpha blend of
the color channels with `alpha = src.a / 255`, output alpha forced to `255`. -/
def blendPixel (src dst : Pix) : Pix :=
  ⟨blendChannel src.r dst.r ((src.a : ℚ) / 255),
   blendChannel src.g dst.g ((src.a : ℚ) / 255),
   blendChannel src.b dst.b ((src.a : ℚ) / 255),
   255⟩

end SerialStamp

namespace SerialStamp

/-- Helper: rounding a value of `[0, m]` stays `≤ m`. -/
theorem rustRoundAsU32_le {q : ℚ} {m : ℕ} (h0 : 0 ≤ q) (h : q ≤ (m : ℚ)) :
    rustRoundAsU32 q ≤ m := by
  unfold rustRoundAsU32 rustRound
  rw [if_pos h0]
  refine le_trans (min_le_left _ _) ?_
  have hfl : ⌊q + 1/2⌋ ≤ (m : ℤ) := by
    have : ⌊q + 1/2⌋ ≤ ⌊(m : ℚ) + 1/2⌋ := Int.floor_le_floor (by linarith)
    have hm : ⌊(m : ℚ) + 1/2⌋ = (m : ℤ) := by
      rw [add_comm]
      rw [show ((m : ℚ)) = ((m : ℤ) : ℚ) by push_cast; ring]
      rw [Int.floor_add_int]
      norm_num
    omega
  omega

/-- Concrete configuration whose millimeter fields are all `1`. -/
def c1cfg : SheetConfig := ⟨1, 1, 1, 1, 1, 1, 1, 1, 1, 1⟩

/-- C1: `render_sheet` and `generate_preview_png` do NOT use the same
rounding rule. At 300 DPI, `1 mm * (300 / 25.4) = 11.81…`; `render_sheet`
rounds it to `12` px while `generate_preview_png` truncates it to `11` px,
so the same mm value and DPI yield different integer pixel values. (Within
`render_sheet` itself, all conversion sites do agree.) -/
theorem c1_divergence :
    sheetPageWidthPx c1cfg 300 = 12 ∧
    sheetMarginLeftPx c1cfg 300 = 12 ∧
    previewPageWidthPx c1cfg = 11 ∧
    previewMarginLeftPx c1cfg = 11 ∧
    sheetPageWidthPx c1cfg 300 ≠ previewPageWidthPx c1cfg := by
  have h1 : sheetPageWidthPx c1cfg 300 = 12 := by
    norm_num [sheetPageWidthPx, c1cfg, rustRoundAsU32, rustRound, pixelsPerMm]
    decide
  have h2 : sheetMarginLeftPx c1cfg 300 = 12 := by
    norm_num [sheetMarginLeftPx, c1cfg, rustRoundAsU32, rustRound, pixelsPerMm]
    decide
  have h3 : previewPageWidthPx c1cfg = 11 := by
    norm_num [previewPageWidthPx, c1cfg, rustAsU32, pixelsPerMm]
    decide
  have h4 : previewMarginLeftPx c1cfg = 11 := by
    norm_num [previewMarginLeftPx, c1cfg, rustAsU32, pixelsPerMm]
    decide
  exact ⟨h1, h2, h3, h4, by rw [h1, h3]; decide⟩

/-- C2: for every all-positive configuration, either both derived ticket
dimensions are strictly positive and the check passes, or `render_sheet`
returns the `"Invalid ticket dimensions"` configuration error before any
ticket is rendered; a non-positive dimension is never clamped. -/
theorem c2_ticket_dims_positive_or_error (c : SheetConfig)
    (hpw : 0 < c.paper_width_mm) (hph : 0 < c.paper_height_mm)
    (hmt : 0 < c.margin_top_mm) (hmr : 0 < c.margin_right_mm)
    (hmb : 0 < c.margin_bottom_mm) (hml : 0 < c.margin_left_mm)
    (hsx : 0 < c.spacing_x_mm) (hsy : 0 < c.spacing_y_mm)
    (hr : 0 < c.rows) (hc : 0 < c.cols) :
    (0 < ticketWidthMm c ∧ 0 < ticketHeightMm c ∧
      renderSheetTicketDims c = .ok (ticketWidthMm c, ticketHeightMm c)) ∨
    ((ticketWidthMm c ≤ 0 ∨ ticketHeightMm c ≤ 0) ∧
      renderSheetTicketDims c = .error "Invalid ticket dimensions") := by
  by_cases h : ticketWidthMm c ≤ 0 ∨ ticketHeightMm c ≤ 0
  · exact Or.inr ⟨h, by simp [renderSheetTicketDims, h]⟩
  · push_neg at h
    exact Or.inl ⟨h.1, h.2,
      by simp [renderSheetTicketDims, not_le.mpr h.1, not_le.mpr h.2]⟩

/-- A concrete 2×2 layout on 100×100 mm paper with 1 mm margins/spacing. -/
def c2cfg : SheetConfig := ⟨100, 100, 2, 2, 1, 1, 1, 1, 1, 1⟩

/-- Witness for C2 at a concrete configuration (`ticket = 48.5 mm`). -/
theorem c2_witness :
    (0 < c2cfg.paper_width_mm ∧ 0 < c2cfg.paper_height_mm ∧
     0 < c2cfg.margin_top_mm ∧ 0 < c2cfg.margin_right_mm ∧
     0 < c2cfg.margin_bottom_mm ∧ 0 < c2cfg.margin_left_mm ∧
     0 < c2cfg.spacing_x_mm ∧ 0 < c2cfg.spacing_y_mm ∧
     0 < c2cfg.rows ∧ 0 < c2cfg.cols) ∧
    ((0 < ticketWidthMm c2cfg ∧ 0 < ticketHeightMm c2cfg ∧
      renderSheetTicketDims c2cfg = .ok (ticketWidthMm c2cfg, ticketHeightMm c2cfg)) ∨
     ((ticketWidthMm c2cfg ≤ 0 ∨ ticketHeightMm c2cfg ≤ 0) ∧
      renderSheetTicketDims c2cfg = .error "Invalid ticket dimensions")) :=
  ⟨⟨by norm_num [c2cfg], by norm_num [c2cfg], by norm_num [c2cfg],
    by norm_num [c2cfg], by norm_num [c2cfg], by norm_num [c2cfg],
    by norm_num [c2cfg], by norm_num [c2cfg], by norm_num [c2cfg],
    by norm_num [c2cfg]⟩,
   c2_ticket_dims_positive_or_error c2cfg (by norm_num [c2cfg])
     (by norm_num [c2cfg]) (by norm_num [c2cfg]) (by norm_num [c2cfg])
     (by norm_num [c2cfg]) (by norm_num [c2cfg]) (by norm_num [c2cfg])
     (by norm_num [c2cfg]) (by norm_num [c2cfg]) (by norm_num [c2cfg])⟩

/-- C3: template scaling uses the single uniform factor
`min(cell_w/template_w, cell_h/template_h)` on both axes, the scaled
template fits in its cell, and the centering offsets equal
`⌊(cell − scaled) / 2⌋` (as integers, not merely as saturating `ℕ` ops). -/
theorem c3_uniform_scale_centered (cellW cellH tw th : ℕ)
    (htw : 0 < tw) (hth : 0 < th) :
    scaledTemplateWidth cellW cellH tw th
      = rustRoundAsU32 ((tw : ℚ) * min ((cellW : ℚ) / (tw : ℚ)) ((cellH : ℚ) / (th : ℚ))) ∧
    scaledTemplateHeight cellW cellH tw th
      = rustRoundAsU32 ((th : ℚ) * min ((cellW : ℚ) / (tw : ℚ)) ((cellH : ℚ) / (th : ℚ))) ∧
    scaledTemplateWidth cellW cellH tw th ≤ cellW ∧
    scaledTemplateHeight cellW cellH tw th ≤ cellH ∧
    (templateOffsetX cellW cellH tw th : ℤ)
      = ((cellW : ℤ) - (scaledTemplateWidth cellW cellH tw th : ℤ)) / 2 ∧
    (templateOffsetY cellW cellH tw th : ℤ)
      = ((cellH : ℤ) - (scaledTemplateHeight cellW cellH tw th : ℤ)) / 2 := by
  have htwQ : (0 : ℚ) < (tw : ℚ) := by exact_mod_cast htw
  have hthQ : (0 : ℚ) < (th : ℚ) := by exact_mod_cast hth
  have hmin0 : 0 ≤ min ((cellW : ℚ) / (tw : ℚ)) ((cellH : ℚ) / (th : ℚ)) :=
    le_min (div_nonneg (Nat.cast_nonneg _) htwQ.le) (div_nonneg (Nat.cast_nonneg _) hthQ.le)
  have hW : scaledTemplateWidth cellW cellH tw th ≤ cellW := by
    apply rustRoundAsU32_le (mul_nonneg (Nat.cast_nonneg _) hmin0)
    calc (tw : ℚ) * min ((cellW : ℚ) / (tw : ℚ)) ((cellH : ℚ) / (th : ℚ))
        ≤ (tw : ℚ) * ((cellW : ℚ) / (tw : ℚ)) :=
          mul_le_mul_of_nonneg_left (min_le_left _ _) (Nat.cast_nonneg _)
      _ = (cellW : ℚ) := mul_div_cancel₀ _ htwQ.ne'
  have hH : scaledTemplateHeight cellW cellH tw th ≤ cellH := by
    apply rustRoundAsU32_le (mul_nonneg (Nat.cast_nonneg _) hmin0)
    calc (th : ℚ) * min ((cellW : ℚ) / (tw : ℚ)) ((cellH : ℚ) / (th : ℚ))
        ≤ (th : ℚ) * ((cellH : ℚ) / (th : ℚ)) :=
          mul_le_mul_of_nonneg_left (min_le_right _ _) (Nat.cast_nonneg _)
      _ = (cellH : ℚ) := mul_div_cancel₀ _ hthQ.ne'
  refine ⟨rfl, rfl, hW, hH, ?_, ?_⟩
  · rw [templateOffsetX, ← Nat.cast_sub hW]
    exact Int.ofNat_ediv _ _
  · rw [templateOffsetY, ← Nat.cast_sub hH]
    exact Int.ofNat_ediv _ _

/-- Witness for C3 at the spec's example: a 100×50 template in a 60×60 cell
is scaled by 0.6 to 60×30 and vertically offset by 15. -/
theorem c3_witness :
    0 < 100 ∧ 0 < 50 ∧
    (scaledTemplateWidth 60 60 100 50
       = rustRoundAsU32 ((100 : ℚ) * min ((60 : ℚ) / (100 : ℚ)) ((60 : ℚ) / (50 : ℚ))) ∧
     scaledTemplateHeight 60 60 100 50
       = rustRoundAsU32 ((50 : ℚ) * min ((60 : ℚ) / (100 : ℚ)) ((60 : ℚ) / (50 : ℚ))) ∧
     scaledTemplateWidth 60 60 100 50 ≤ 60 ∧
     scaledTemplateHeight 60 60 100 50 ≤ 60 ∧
     (templateOffsetX 60 60 100 50 : ℤ)
       = ((60 : ℤ) - (scaledTemplateWidth 60 60 100 50 : ℤ)) / 2 ∧
     (templateOffsetY 60 60 100 50 : ℤ)
       = ((60 : ℤ) - (scaledTemplateHeight 60 60 100 50 : ℤ)) / 2) ∧
    scaledTemplateWidth 60 60 100 50 = 60 ∧
    scaledTemplateHeight 60 60 100 50 = 30 ∧
    templateOffsetY 60 60 100 50 = 15 := by
  have h60 : scaledTemplateWidth 60 60 100 50 = 60 := by
    norm_num [scaledTemplateWidth, templateScale, templateScaleX, templateScaleY,
      rustRoundAsU32, rustRound]
    decide
  have h30 : scaledTemplateHeight 60 60 100 50 = 30 := by
    norm_num [scaledTemplateHeight, templateScale, templateScaleX, templateScaleY,
      rustRoundAsU32, rustRound]
    decide
  have h15 : templateOffsetY 60 60 100 50 = 15 := by
    simp [templateOffsetY, h30]
  have hc3 := c3_uniform_scale_centered 60 60 100 50 (by decide) (by decide)
  exact ⟨by decide, by decide,
    by simpa [templateScale, templateScaleX, templateScaleY] using hc3, h60, h30, h15⟩

/-- C5: for every text stamp the scaled (x, y) is an anchor point; the
drawing origin subtracts `width/2`/`width` for center/right alignment and
`height/2`/`height` for middle/bottom vertical alignment (default top).
In particular anchor (100, 50) with right/bottom and a 40×10 measured size
gives origin (60, 40). -/
theorem c5_text_anchor_semantics :
    (∀ (ax : ℤ) (w : ℕ), textOriginX ax "left" w = ax) ∧
    (∀ (ax : ℤ) (w : ℕ), textOriginX ax "center" w = ax - ((w / 2 : ℕ) : ℤ)) ∧
    (∀ (ax : ℤ) (w : ℕ), textOriginX ax "right" w = ax - (w : ℤ)) ∧
    (∀ (ay : ℤ) (h : ℕ), textOriginY ay (some "top") h = ay) ∧
    (∀ (ay : ℤ) (h : ℕ), textOriginY ay none h = ay) ∧
    (∀ (ay : ℤ) (h : ℕ), textOriginY ay (some "middle") h = ay - ((h / 2 : ℕ) : ℤ)) ∧
    (∀ (ay : ℤ) (h : ℕ), textOriginY ay (some "bottom") h = ay - (h : ℤ)) ∧
    textOriginX 100 "right" 40 = 60 ∧
    textOriginY 50 (some "bottom") 10 = 40 := by
  refine ⟨?_, ?_, ?_, ?_, ?_, ?_, ?_, ?_, ?_⟩
  · intro ax w; simp [textOriginX]
  · intro ax w; simp [textOriginX]
  · intro ax w; simp [textOriginX]
  · intro ay h; simp [textOriginY]
  · intro ay h; simp [textOriginY]
  · intro ay h; simp [textOriginY]
  · intro ay h; simp [textOriginY]
  · simp [textOriginX]
  · simp [textOriginY]

/-- C7 counterexample: blending a fully transparent source (`alpha = 0`)
does NOT leave every destination channel unchanged — the destination's
alpha channel is forced to 255 (here the destination had alpha 100). -/
theorem c7_counterexample :
    blendPixel ⟨5, 6, 7, 0⟩ ⟨10, 20, 30, 100⟩ = ⟨10, 20, 30, 255⟩ ∧
    blendPixel ⟨5, 6, 7, 0⟩ ⟨10, 20, 30, 100⟩ ≠ ⟨10, 20, 30, 100⟩ := by
  have h : blendPixel ⟨5, 6, 7, 0⟩ ⟨10, 20, 30, 100⟩ = ⟨10, 20, 30, 255⟩ := by
    norm_num [blendPixel, blendChannel, rustAsU8]
    decide
  exact ⟨h, by rw [h]; intro hEq; cases hEq⟩

/-- C7 (amended): with source alpha 0 the destination *color* channels are
unchanged and the output alpha is forced to 255 (so the whole pixel is
unchanged exactly when the destination was already opaque); with source
alpha 255 the color channels are replaced exactly by the source and the
output alpha is 255. -/
theorem c7_alpha_extremes (src dst : Pix)
    (hdr : dst.r ≤ 255) (hdg : dst.g ≤ 255) (hdb : dst.b ≤ 255)
    (hsr : src.r ≤ 255) (hsg : src.g ≤ 255) (hsb : src.b ≤ 255) :
    (src.a = 0 → blendPixel src dst = ⟨dst.r, dst.g, dst.b, 255⟩) ∧
    (src.a = 0 → dst.a = 255 → blendPixel src dst = dst) ∧
    (src.a = 255 → blendPixel src dst = ⟨src.r, src.g, src.b, 255⟩) := by
  have hch0 : ∀ s d : ℕ, d ≤ 255 → blendChannel s d ((0 : ℚ) / 255) = d := by
    intro s d hd
    have : ((s : ℚ) * (0 / 255) + (d : ℚ) * (1 - 0 / 255)) = (d : ℚ) := by ring
    simp [blendChannel, rustAsU8, this, Int.floor_natCast, hd]
  have hch1 : ∀ s d : ℕ, s ≤ 255 → blendChannel s d ((255 : ℚ) / 255) = s := by
    intro s d hs
    have : ((s : ℚ) * (255 / 255) + (d : ℚ) * (1 - 255 / 255)) = (s : ℚ) := by
      norm_num
    simp [blendChannel, rustAsU8, this, Int.floor_natCast, hs]
  refine ⟨?_, ?_, ?_⟩
  · intro h0
    simp only [blendPixel, h0, Nat.cast_zero]
    rw [hch0 _ _ hdr, hch0 _ _ hdg, hch0 _ _ hdb]
  · intro h0 hda
    simp only [blendPixel, h0, Nat.cast_zero]
    rw [hch0 _ _ hdr, hch0 _ _ hdg, hch0 _ _ hdb]
    cases dst
    simp_all
  · intro h1
    simp only [blendPixel, h1, Nat.cast_ofNat]
    rw [hch1 _ _ hsr, hch1 _ _ hsg, hch1 _ _ hsb]

/-- Witness for C7 at concrete pixels: an opaque source replaces the
destination color channels. -/
theorem c7_witness :
    ((4 : ℕ) ≤ 255 ∧ (5 : ℕ) ≤ 255 ∧ (6 : ℕ) ≤ 255 ∧
     (1 : ℕ) ≤ 255 ∧ (2 : ℕ) ≤ 255 ∧ (3 : ℕ) ≤ 255) ∧
    blendPixel ⟨1, 2, 3, 255⟩ ⟨4, 5, 6, 7⟩ = ⟨1, 2, 3, 255⟩ :=
  ⟨⟨by decide, by decide, by decide, by decide, by decide, by decide⟩,
   (c7_alpha_extremes ⟨1, 2, 3, 255⟩ ⟨4, 5, 6, 7⟩ (by decide) (by decide)
     (by decide) (by decide) (by decide) (by decide)).2.2 rfl⟩

end SerialStamp

namespace SerialStamp

/-! ## Template resolution (`resolve_template` in `ticket_renderer.rs`)

`resolve_template` iterates over the record `HashMap` and performs
`result = result.replace("{{key}}", value)` for each entry.  Strings are
modelled as `List Char`; the `HashMap` together with one concrete iteration
order is modelled as an association list in that order.  Rust's
`str::replace` rewrites all non-overlapping matches left to right; it is
modelled by `replaceFuel`, a fuel-indexed scanner (the fuel `s.length`
always suffices because every step consumes at least one character). -/

/-- `true` iff the second list starts with the first (pattern) list. -/
def headMatch : List Char → List Char → Bool
  | [], _ => true
  | _ :: _, [] => false
  | a :: p, b :: s => a == b && headMatch p s

/-- Left-to-right scanner for `str::replace` with a nonempty pattern: on a
match, emit the replacement and skip the matched characters; otherwise emit
one character and continue. -/
def replaceFuel (pat rep : List Char) : ℕ → List Char → List Char
  | 0, s => s
  | _ + 1, [] => []
  | n + 1, c :: rest =>
    if headMatch pat (c :: rest) then
      rep ++ replaceFuel pat rep n (rest.drop (pat.length - 1))
    else
      c :: replaceFuel pat rep n rest

/-- Rust `s.replace(pat, rep)` (for the nonempty patterns used here). -/
def replaceAll (s pat rep : List Char) : List Char :=
  replaceFuel pat rep s.length s

/-- `format!("{{{{{}}}}}", key)`: the placeholder text for a field name. -/
def brack (w : List Char) : List Char :=
  '{' :: '{' :: (w ++ ['}', '}'])

/-- `resolve_template`: sequential replacement of each record entry's
placeholder by its value, in the record's iteration order. -/
def resolveTemplate (template : List Char) (record : List (List Char × List Char)) : List Char :=
  record.foldl (fun acc kv => replaceAll acc (brack kv.1) kv.2) template

/-- A word containing no brace character. -/
def braceFree (w : List Char) : Prop := '{' ∉ w ∧ '}' ∉ w

/-- `true` iff the pattern occurs as a contiguous substring. -/
def hasSub (pat : List Char) : List Char → Bool
  | [] => pat.isEmpty
  | c :: rest => headMatch pat (c :: rest) || hasSub pat rest

theorem headMatch_iff (p s : List Char) : headMatch p s = true ↔ ∃ r, s = p ++ r := by
  induction p generalizing s with
  | nil => simp [headMatch]
  | cons a p ih =>
    cases s with
    | nil => simp [headMatch]
    | cons b s =>
      rw [headMatch, Bool.and_eq_true, beq_iff_eq, ih]
      constructor
      · rintro ⟨rfl, r, rfl⟩
        exact ⟨r, rfl⟩
      · rintro ⟨r, hr⟩
        rw [List.cons_append] at hr
        injection hr with h1 h2
        exact ⟨h1.symm, r, h2⟩

theorem hasSub_iff (p s : List Char) : hasSub p s = true ↔ ∃ l r, s = l ++ p ++ r := by
  induction s with
  | nil =>
    simp only [hasSub, List.isEmpty_iff]
    constructor
    · rintro rfl
      exact ⟨[], [], rfl⟩
    · rintro ⟨l, r, h⟩
      rcases List.append_eq_nil.mp h.symm with ⟨h1, h2⟩
      exact (List.append_eq_nil.mp h1).2
  | cons c s ih =>
    rw [hasSub, Bool.or_eq_true, headMatch_iff, ih]
    constructor
    · rintro (⟨r, hr⟩ | ⟨l, r, hr⟩)
      · exact ⟨[], r, by simp [hr]⟩
      · exact ⟨c :: l, r, by simp [hr]⟩
    · rintro ⟨l, r, hr⟩
      cases l with
      | nil => exact Or.inl ⟨r, by simpa using hr⟩
      | cons c' l' =>
        rw [List.cons_append, List.cons_append] at hr
        injection hr with h1 h2
        exact Or.inr ⟨l', r, h2⟩

theorem hasSub_append_left (p v w : List Char) (h : hasSub p w = true) :
    hasSub p (v ++ w) = true := by
  obtain ⟨l, r, rfl⟩ := (hasSub_iff p w).mp h
  exact (hasSub_iff _ _).mpr ⟨v ++ l, r, by simp⟩

theorem hasSub_cons (p : List Char) (c : Char) (w : List Char) (h : hasSub p w = true) :
    hasSub p (c :: w) = true := by
  rw [hasSub, Bool.or_eq_true]
  exact Or.inr h

/-- Two brace-delimited words that close the same way are equal: the
interior of a placeholder is read off unambiguously when it is brace-free. -/
theorem bracketInner {k f r' r : List Char}
    (hk : '}' ∉ k) (hf : '}' ∉ f)
    (h : k ++ '}' :: '}' :: r' = f ++ '}' :: '}' :: r) : k = f := by
  induction k generalizing f with
  | nil =>
    cases f with
    | nil => rfl
    | cons c f' =>
      rw [List.nil_append, List.cons_append] at h
      injection h with h1 h2
      exact absurd (h1 ▸ List.mem_cons_self c f') hf
  | cons a k' ih =>
    cases f with
    | nil =>
      rw [List.cons_append, List.nil_append] at h
      injection h with h1 h2
      exact absurd (h1 ▸ List.mem_cons_self a k') hk
    | cons c f' =>
      rw [List.cons_append, List.cons_append] at h
      injection h with h1 h2
      have := ih (fun hm => hk (List.mem_cons_of_mem a hm))
        (fun hm => hf (List.mem_cons_of_mem c hm)) h2
      rw [h1, this]

/-- No occurrence of the placeholder of `k` can begin inside the span of an
occurrence of the placeholder of a different brace-free `f`. -/
theorem brack_no_overlap {k f : List Char} (hk : braceFree k) (hf : braceFree f)
    (hne : k ≠ f) :
    ∀ i r, i < (brack f).length → ¬ headMatch (brack k) ((brack f).drop i ++ r) = true := by
  intro i r hi hm
  obtain ⟨r', hr'⟩ := (headMatch_iff _ _).mp hm
  match i with
  | 0 =>
    rw [List.drop_zero] at hr'
    simp only [brack, List.cons_append, List.append_assoc, List.nil_append] at hr'
    injection hr' with h1 h2
    injection h2 with h3 h4
    exact hne (bracketInner hk.2 hf.2 h4.symm)
  | 1 =>
    rw [brack, List.drop_succ_cons, List.drop_zero] at hr'
    rw [brack, List.cons_append] at hr'
    injection hr' with h1 h2
    cases hfc : f with
    | nil =>
      subst hfc
      simp only [List.nil_append, List.cons_append] at h2
      injection h2 with h3 h4
      exact absurd h3.symm (by decide)
    | cons c f' =>
      subst hfc
      rw [List.cons_append, List.cons_append] at h2
      injection h2 with h3 h4
      exact hf.1 (h3 ▸ List.mem_cons_self c f')
  | (j + 2) =>
    rw [brack, List.drop_succ_cons, List.drop_succ_cons] at hr'
    have hjlen : j < (f ++ ['}', '}']).length := by
      rw [brack] at hi
      simp only [List.length_cons, List.length_append, List.length_cons,
        List.length_nil] at hi ⊢
      omega
    rw [List.drop_eq_getElem_cons hjlen] at hr'
    rw [brack, List.cons_append, List.cons_append] at hr'
    injection hr' with h1 h2
    have hmem : (f ++ ['}', '}'])[j] ∈ f ++ ['}', '}'] := List.getElem_mem hjlen
    rcases List.mem_append.mp hmem with hmf | hmb
    · exact hf.1 (h1 ▸ hmf)
    · rw [h1] at hmb
      exact absurd hmb (by decide)

/-- A region in which the pattern never matches is emitted verbatim by the
replacement scanner. -/
theorem replaceFuel_emit (pat rep : List Char) :
    ∀ (u t : List Char) (n : ℕ),
      (∀ i, i < u.length → ¬ headMatch pat (u.drop i ++ t) = true) →
      u.length + t.length ≤ n →
      replaceFuel pat rep n (u ++ t) = u ++ replaceFuel pat rep (n - u.length) t := by
  intro u
  induction u with
  | nil =>
    intro t n hno hlen
    simp
  | cons a u' ih =>
    intro t n hno hlen
    cases n with
    | zero => simp at hlen
    | succ m =>
      rw [List.cons_append, replaceFuel]
      rw [if_neg (by
        have := hno 0 (by simp)
        simpa using this)]
      rw [ih t m (fun i hi => by
          have := hno (i + 1) (by simpa using Nat.succ_lt_succ hi)
          simpa using this)
        (by simp at hlen; omega)]
      simp [Nat.succ_sub_succ]

/-- Replacing the placeholder of `k` preserves every occurrence of the
placeholder of any other brace-free word `f` (the two placeholders can
never overlap, so the scanner either skips past the occurrence or copies
it verbatim). -/
theorem replaceFuel_preserves {k f : List Char} (v : List Char)
    (hk : braceFree k) (hf : braceFree f) (hne : k ≠ f) :
    ∀ n s, s.length ≤ n → hasSub (brack f) s = true →
      hasSub (brack f) (replaceFuel (brack k) v n s) = true := by
  intro n
  induction n with
  | zero =>
    intro s hlen hsub
    rw [Nat.le_zero, List.length_eq_zero] at hlen
    subst hlen
    simp [hasSub, brack] at hsub
  | succ n ih =>
    intro s hlen hsub
    cases s with
    | nil => simp [hasSub, brack] at hsub
    | cons c rest =>
      obtain ⟨l, r, hs⟩ := (hasSub_iff _ _).mp hsub
      by_cases hm : headMatch (brack k) (c :: rest) = true
      · -- the pattern matches at the head; the occurrence of `brack f`
        -- must lie entirely beyond the match
        rw [replaceFuel, if_pos hm]
        obtain ⟨r', hr'⟩ := (headMatch_iff _ _).mp hm
        rcases Nat.lt_or_ge l.length (brack k).length with hlt | hge
        · exfalso
          have h1 : (c :: rest).drop l.length = brack f ++ r := by
            rw [hs, List.append_assoc, List.drop_left]
          have h2 : (c :: rest).drop l.length = (brack k).drop l.length ++ r' := by
            rw [hr', List.drop_append_of_le_length (Nat.le_of_lt hlt)]
          have hocc : headMatch (brack f) ((brack k).drop l.length ++ r') = true := by
            rw [headMatch_iff]
            exact ⟨r, by rw [← h2, h1]⟩
          exact brack_no_overlap hf hk (fun hEq => hne hEq.symm) l.length r' hlt hocc
        · have hdrop : rest.drop ((brack k).length - 1)
              = l.drop (brack k).length ++ brack f ++ r := by
            have hL : (brack k).length = ((brack k).length - 1) + 1 := by
              simp [brack]
            have hdc : (c :: rest).drop (brack k).length
                = l.drop (brack k).length ++ (brack f ++ r) := by
              rw [hs, List.append_assoc, List.drop_append_of_le_length hge]
            nth_rewrite 1 [hL] at hdc
            rw [List.drop_succ_cons] at hdc
            rw [hdc, List.append_assoc]
          have hlen' : (rest.drop ((brack k).length - 1)).length ≤ n := by
            have h1 : rest.length ≤ n := by
              simp at hlen
              omega
            have := List.length_drop ((brack k).length - 1) rest
            omega
          have hsub' : hasSub (brack f) (rest.drop ((brack k).length - 1)) = true := by
            rw [hasSub_iff]
            exact ⟨l.drop (brack k).length, r, by rw [hdrop]⟩
          exact hasSub_append_left _ v _ (ih _ hlen' hsub')
      · cases l with
        | nil =>
          -- the occurrence starts at the head: all of `brack f` is emitted
          -- verbatim because no match of `brack k` can begin inside it
          rw [List.nil_append] at hs
          rw [hs]
          rw [replaceFuel_emit (brack k) v (brack f) r (n + 1)
            (fun i hi => brack_no_overlap hk hf hne i r hi)
            (by rw [hs] at hlen; simpa using hlen)]
          exact (hasSub_iff _ _).mpr
            ⟨[], replaceFuel (brack k) v (n + 1 - (brack f).length) r, by simp⟩
        | cons c' l' =>
          rw [replaceFuel, if_neg hm]
          rw [List.cons_append, List.cons_append] at hs
          injection hs with h1 h2
          have hrest : hasSub (brack f) rest = true := by
            rw [hasSub_iff]
            exact ⟨l', r, by rw [h2, List.append_assoc]⟩
          have : rest.length ≤ n := by
            simp at hlen
            omega
          exact hasSub_cons _ _ _ (ih rest this hrest)

theorem replaceAll_preserves {k f : List Char} (v s : List Char)
    (hk : braceFree k) (hf : braceFree f) (hne : k ≠ f)
    (hsub : hasSub (brack f) s = true) :
    hasSub (brack f) (replaceAll s (brack k) v) = true :=
  replaceFuel_preserves v hk hf hne s.length s le_rfl hsub

/-- C8 (amended): when all field names are brace-free, every placeholder of
a field absent from the record remains verbatim (as a substring) in
`resolve_template`'s output, for every iteration order and arbitrary
replacement values.  (With brace-containing field names an absent
placeholder can be consumed by an overlapping present placeholder — see the
counterexample.) -/
theorem c8_absent_placeholder_preserved
    (t : List Char) (record : List (List Char × List Char)) (f : List Char)
    (hf : braceFree f)
    (hkeys : ∀ kv ∈ record, braceFree kv.1)
    (habsent : ∀ kv ∈ record, kv.1 ≠ f)
    (hocc : hasSub (brack f) t = true) :
    hasSub (brack f) (resolveTemplate t record) = true := by
  induction record generalizing t with
  | nil => exact hocc
  | cons kv record ih =>
    rw [resolveTemplate, List.foldl_cons]
    exact ih (replaceAll t (brack kv.1) kv.2)
      (fun x hx => hkeys x (List.mem_cons_of_mem kv hx))
      (fun x hx => habsent x (List.mem_cons_of_mem kv hx))
      (replaceAll_preserves kv.2 t (hkeys kv (List.mem_cons_self kv record))
        hf (habsent kv (List.mem_cons_self kv record)) hocc)

end SerialStamp

namespace SerialStamp

/-- Witness for C8 at the spec's example: resolving `"No. {{serial}}"`
against the record `{"other": "x"}` keeps `{{serial}}` verbatim — indeed
the whole template is unchanged. -/
theorem c8_witness :
    braceFree ['s', 'e', 'r', 'i', 'a', 'l'] ∧
    hasSub (brack ['s', 'e', 'r', 'i', 'a', 'l'])
      (resolveTemplate (['N', 'o', '.', ' '] ++ brack ['s', 'e', 'r', 'i', 'a', 'l'])
        [(['o', 't', 'h', 'e', 'r'], ['x'])]) = true ∧
    resolveTemplate (['N', 'o', '.', ' '] ++ brack ['s', 'e', 'r', 'i', 'a', 'l'])
        [(['o', 't', 'h', 'e', 'r'], ['x'])]
      = ['N', 'o', '.', ' '] ++ brack ['s', 'e', 'r', 'i', 'a', 'l'] := by
  refine ⟨by constructor <;> decide, ?_, by decide⟩
  exact c8_absent_placeholder_preserved _ _ _ (by constructor <;> decide)
    (by intro kv hkv; simp at hkv; rw [hkv]; constructor <;> decide)
    (by intro kv hkv; simp at hkv; rw [hkv]; decide)
    (by decide)

/-- C8 counterexample: with a brace-containing field name, an absent
field's placeholder does NOT remain verbatim.  Resolving the template
`"{{x{{serial}}"` against the record `{"x{{serial": "v"}` yields `"v"`:
the template contained the placeholder `{{serial}}` of the absent field
`serial`, but the output does not. -/
theorem c8_counterexample :
    resolveTemplate (brack ('x' :: '{' :: '{' :: ['s', 'e', 'r', 'i', 'a', 'l']))
        [(('x' :: '{' :: '{' :: ['s', 'e', 'r', 'i', 'a', 'l']), ['v'])] = ['v'] ∧
    hasSub (brack ['s', 'e', 'r', 'i', 'a', 'l'])
      (brack ('x' :: '{' :: '{' :: ['s', 'e', 'r', 'i', 'a', 'l'])) = true ∧
    hasSub (brack ['s', 'e', 'r', 'i', 'a', 'l']) ['v'] = false :=
  ⟨by decide, by decide, by decide⟩

/-- C4: `resolve_template`'s sequential replacement is sensitive to the
record's iteration order.  The records `[a ↦ "{{b}}", b ↦ "X"]` and
`[b ↦ "X", a ↦ "{{b}}"]` are permutations of the same field mapping, yet
resolving the template `"{{a}}"` yields `"X"` under the first order and
`"{{b}}"` under the second — `HashMap` iteration order (freshly seeded per
map in Rust) therefore can change the resolved text and hence the pixels,
contradicting the claim that no iteration order can affect the output. -/
theorem c4_order_divergence :
    [(['a'], brack ['b']), (['b'], ['X'])].Perm
      [(['b'], ['X']), (['a'], brack ['b'])] ∧
    resolveTemplate (brack ['a']) [(['a'], brack ['b']), (['b'], ['X'])] = ['X'] ∧
    resolveTemplate (brack ['a']) [(['b'], ['X']), (['a'], brack ['b'])] = brack ['b'] ∧
    (['X'] : List Char) ≠ brack ['b'] :=
  ⟨by decide, by decide, by decide, by decide⟩

end SerialStamp

namespace SerialStamp

/-! ## QR code rendering (`generate_qr_code`, `render_qr_stamp`) and image
compositing (`composite_image`).

Images are modelled as a width, a height and a pixel function; the nested
`for` loops of `composite_image` are modelled by left folds over
`List.range` in loop order, updating the pixel function. The QR matrix
produced by the external `qrcode` crate is abstracted as a module count
together with a module predicate. -/

/-- `2^32`: `u32` arithmetic (`x + ox`, `module_size * qr_width`) wraps
modulo this in release builds. -/
def U32MOD : ℕ := 2 ^ 32

/-- An RGBA image: dimensions plus a pixel map. -/
structure Img where
  width : ℕ
  height : ℕ
  pix : ℕ → ℕ → Pix

/-- `generate_qr_code`: `let module_size = (size as f32 / qr_width as f32).ceil() as u32`. -/
def qrModuleSize (size qrWidth : ℕ) : ℕ :=
  rustCeilAsU32 ((size : ℚ) / (qrWidth : ℚ))

/-- `generate_qr_code`: `let actual_size = module_size * qr_width as u32`
(`u32` multiplication wraps). -/
def qrActualSize (size qrWidth : ℕ) : ℕ :=
  (qrModuleSize size qrWidth * qrWidth) % U32MOD

/-- `generate_qr_code`: the resize branch runs iff `actual_size != size`. -/
def qrResampleNeeded (size qrWidth : ℕ) : Bool :=
  decide (qrActualSize size qrWidth ≠ size)

/-- The intermediate QR raster of `generate_qr_code`: an
`actual_size × actual_size` image.  The source's loop fills, for each
module `(mx, my)`, the disjoint block
`[mx*module_size, (mx+1)*module_size) × [my*module_size, (my+1)*module_size)`
with the module's color; pixel `(p, q)` therefore shows module
`(p / module_size, q / module_size)`. -/
def qrIntermediate (qrWidth : ℕ) (modules : ℕ → ℕ → Bool) (size : ℕ) : Img where
  width := qrActualSize size qrWidth
  height := qrActualSize size qrWidth
  pix := fun p q =>
    if modules (p / qrModuleSize size qrWidth) (q / qrModuleSize size qrWidth) then
      ⟨0, 0, 0, 255⟩
    else ⟨255, 255, 255, 255⟩

/-- `image::imageops::resize(…, FilterType::Nearest)`: nearest-neighbour
sampling, modelled by the floor index map `p ↦ p * src / dst` (no theorem
below depends on the exact sample positions, only on the output size). -/
def resizeNearest (img : Img) (w h : ℕ) : Img where
  width := w
  height := h
  pix := fun p q => img.pix (p * img.width / w) (q * img.height / h)

/-- `generate_qr_code` for a payload whose QR matrix has `qrWidth` modules
per side given by `modules`: rasterize the module grid at the integer
module size, then resize to the exact target iff the sizes differ. -/
def generateQrCode (qrWidth : ℕ) (modules : ℕ → ℕ → Bool) (size : ℕ) : Img :=
  if qrResampleNeeded size qrWidth then
    resizeNearest (qrIntermediate qrWidth modules size) size size
  else qrIntermediate qrWidth modules size

/-- One iteration of `composite_image`'s inner loop at overlay column `ox`:
skip if the (wrapped) destination is out of bounds, else blend into the
destination pixel. -/
def compositePixStep (bw bh : ℕ) (ovpix : ℕ → ℕ → Pix) (x y oy : ℕ)
    (acc : ℕ → ℕ → Pix) (ox : ℕ) : ℕ → ℕ → Pix :=
  if bw ≤ (x + ox) % U32MOD ∨ bh ≤ (y + oy) % U32MOD then acc
  else fun u w =>
    if u = (x + ox) % U32MOD ∧ w = (y + oy) % U32MOD then
      blendPixel (ovpix ox oy) (acc ((x + ox) % U32MOD) ((y + oy) % U32MOD))
    else acc u w

/-- One iteration of `composite_image`'s outer loop at overlay row `oy`. -/
def compositeRowStep (bw bh ow : ℕ) (ovpix : ℕ → ℕ → Pix) (x y : ℕ)
    (acc : ℕ → ℕ → Pix) (oy : ℕ) : ℕ → ℕ → Pix :=
  (List.range ow).foldl (compositePixStep bw bh ovpix x y oy) acc

/-- `composite_image` (both the `ticket_renderer.rs` and `lib.rs` copies):
for `oy in 0..overlay_h`, `ox in 0..overlay_w`, blend overlay pixel
`(ox, oy)` at destination `(x+ox, y+oy)` unless that is out of bounds;
the base image's dimensions are unchanged and the function is total. -/
def compositeImage (base overlay : Img) (x y : ℕ) : Img where
  width := base.width
  height := base.height
  pix := (List.range overlay.height).foldl
    (compositeRowStep base.width base.height overlay.width overlay.pix x y) base.pix

/-- `QrCodeStamp` from `ticket_renderer.rs`. -/
structure QrCodeStamp where
  id : String
  x : ℚ
  y : ℚ
  width : ℚ
  height : ℚ
  template : List Char
  error_correction : String

/-- `render_qr_stamp`: `let x = (stamp.x * scale_x) as u32`. -/
def renderQrStampX (s : QrCodeStamp) (scaleX : ℚ) : ℕ := rustAsU32 (s.x * scaleX)

/-- `render_qr_stamp`: `let y = (stamp.y * scale_y) as u32`. -/
def renderQrStampY (s : QrCodeStamp) (scaleY : ℚ) : ℕ := rustAsU32 (s.y * scaleY)

/-- `render_qr_stamp`: `let size = (stamp.width * scale_x.min(scale_y)) as u32`. -/
def renderQrStampSize (s : QrCodeStamp) (scaleX scaleY : ℚ) : ℕ :=
  rustAsU32 (s.width * min scaleX scaleY)

/-- `render_qr_stamp`: resolve the template (no-op on empty text), generate
the QR image at the uniform size, composite it at the scaled position.
`qrEnc` abstracts the external `qrcode` crate: error-correction level and
payload to module count and module matrix. -/
def renderQrStamp (qrEnc : String → List Char → ℕ × (ℕ → ℕ → Bool))
    (img : Img) (s : QrCodeStamp) (record : List (List Char × List Char))
    (scaleX scaleY : ℚ) : Img :=
  if resolveTemplate s.template record = [] then img
  else
    compositeImage img
      (generateQrCode (qrEnc s.error_correction (resolveTemplate s.template record)).1
        (qrEnc s.error_correction (resolveTemplate s.template record)).2
        (renderQrStampSize s scaleX scaleY))
      (renderQrStampX s scaleX) (renderQrStampY s scaleY)

/-- Ceiling of a natural division, computed in `ℚ`. -/
theorem ceil_cast_div_eq (a b : ℕ) (hb : 0 < b) :
    ⌈(a : ℚ) / (b : ℚ)⌉ = (((a + b - 1) / b : ℕ) : ℤ) := by
  have hbQ : (0 : ℚ) < (b : ℚ) := by exact_mod_cast hb
  have hdm := Nat.div_add_mod (a + b - 1) b
  have hmlt : (a + b - 1) % b < b := Nat.mod_lt _ hb
  set n : ℕ := (a + b - 1) / b with hn
  have hub : a ≤ b * n := by omega
  have hlb : b * n ≤ a + b - 1 := by omega
  rw [Int.ceil_eq_iff]
  constructor
  · rw [lt_div_iff₀ hbQ]
    have hcast : ((b * n : ℕ) : ℚ) ≤ ((a + b - 1 : ℕ) : ℚ) := by exact_mod_cast hlb
    have h1 : ((a + b - 1 : ℕ) : ℚ) = (a : ℚ) + (b : ℚ) - 1 := by
      have h2 : 1 ≤ a + b := by omega
      push_cast [Nat.cast_sub h2]
      ring
    push_cast at hcast
    rw [h1] at hcast
    push_cast
    nlinarith
  · rw [div_le_iff₀ hbQ]
    have hc : ((a : ℕ) : ℚ) ≤ ((b * n : ℕ) : ℚ) := by exact_mod_cast hub
    push_cast at hc
    push_cast
    linarith

/-- C6: for every target size and positive module count, the module pixel
size is `⌈size / module_count⌉ = (size + count − 1) / count`, the
intermediate image is `module_size · module_count` pixels per side, and the
resampling step to the exact target runs iff the intermediate size differs
from the target (target 29 / count 29: module 1, no resample; target 30 /
count 29: module 2, 58×58 intermediate downsampled to 30×30 — see the
witness). -/
theorem c6_qr_module_rendering (size qrWidth : ℕ) (hqr : 0 < qrWidth)
    (hsize : size < U32MOD)
    (hov : qrModuleSize size qrWidth * qrWidth < U32MOD) :
    qrModuleSize size qrWidth = (size + qrWidth - 1) / qrWidth ∧
    qrActualSize size qrWidth = qrModuleSize size qrWidth * qrWidth ∧
    (qrResampleNeeded size qrWidth = true ↔
      qrModuleSize size qrWidth * qrWidth ≠ size) ∧
    (∀ modules, (qrIntermediate qrWidth modules size).width
        = qrModuleSize size qrWidth * qrWidth ∧
      (qrIntermediate qrWidth modules size).height
        = qrModuleSize size qrWidth * qrWidth) ∧
    (qrResampleNeeded size qrWidth = false →
      ∀ modules, generateQrCode qrWidth modules size
        = qrIntermediate qrWidth modules size) ∧
    (qrResampleNeeded size qrWidth = true →
      ∀ modules, generateQrCode qrWidth modules size
        = resizeNearest (qrIntermediate qrWidth modules size) size size) := by
  have hle : (size + qrWidth - 1) / qrWidth ≤ size := by
    rw [Nat.div_le_iff_le_mul_add_pred hqr]
    have := Nat.le_mul_of_pos_left size hqr
    omega
  have hact : qrActualSize size qrWidth = qrModuleSize size qrWidth * qrWidth := by
    rw [qrActualSize, Nat.mod_eq_of_lt hov]
  refine ⟨?_, hact, ?_, ?_, ?_, ?_⟩
  · rw [qrModuleSize, rustCeilAsU32, ceil_cast_div_eq size qrWidth hqr]
    rw [Int.toNat_natCast]
    rw [min_eq_left]
    rw [U32MOD] at hsize
    omega
  · rw [qrResampleNeeded, hact, decide_eq_true_eq]
  · intro modules
    exact ⟨by rw [qrIntermediate, hact], by rw [qrIntermediate, hact]⟩
  · intro hres modules
    rw [generateQrCode, hres]
    simp
  · intro hres modules
    rw [generateQrCode, hres]
    simp

/-- Witness for C6 at the spec's two examples: target 29 with 29 modules
(module size 1, no resample) and target 30 with 29 modules (module size 2,
58×58 intermediate, resampled). -/
theorem c6_witness :
    0 < 29 ∧ 30 < U32MOD ∧ qrModuleSize 30 29 * 29 < U32MOD ∧
    (qrModuleSize 30 29 = (30 + 29 - 1) / 29 ∧
     qrActualSize 30 29 = qrModuleSize 30 29 * 29 ∧
     (qrResampleNeeded 30 29 = true ↔ qrModuleSize 30 29 * 29 ≠ 30) ∧
     (∀ modules, (qrIntermediate 29 modules 30).width = qrModuleSize 30 29 * 29 ∧
       (qrIntermediate 29 modules 30).height = qrModuleSize 30 29 * 29) ∧
     (qrResampleNeeded 30 29 = false →
       ∀ modules, generateQrCode 29 modules 30 = qrIntermediate 29 modules 30) ∧
     (qrResampleNeeded 30 29 = true →
       ∀ modules, generateQrCode 29 modules 30
         = resizeNearest (qrIntermediate 29 modules 30) 30 30)) ∧
    qrModuleSize 30 29 = 2 ∧ qrActualSize 30 29 = 58 ∧
    qrResampleNeeded 30 29 = true ∧
    qrModuleSize 29 29 = 1 ∧ qrActualSize 29 29 = 29 ∧
    qrResampleNeeded 29 29 = false := by
  have h2 : qrModuleSize 30 29 = 2 := by
    rw [qrModuleSize, rustCeilAsU32, ceil_cast_div_eq 30 29 (by decide),
      Int.toNat_natCast]
    decide
  have h1 : qrModuleSize 29 29 = 1 := by
    rw [qrModuleSize, rustCeilAsU32, ceil_cast_div_eq 29 29 (by decide),
      Int.toNat_natCast]
    decide
  have ha58 : qrActualSize 30 29 = 58 := by
    rw [qrActualSize, h2, U32MOD]
    decide
  have ha29 : qrActualSize 29 29 = 29 := by
    rw [qrActualSize, h1, U32MOD]
    decide
  have hs30 : (30 : ℕ) < U32MOD := by rw [U32MOD]; decide
  have hov : qrModuleSize 30 29 * 29 < U32MOD := by rw [h2, U32MOD]; decide
  exact ⟨by decide, hs30, hov,
    c6_qr_module_rendering 30 29 (by decide) hs30 hov,
    h2, ha58, by rw [qrResampleNeeded, ha58]; decide,
    h1, ha29, by rw [qrResampleNeeded, ha29]; decide⟩

theorem compositePixStep_untouched (bw bh : ℕ) (ovpix : ℕ → ℕ → Pix)
    (x y oy : ℕ) (acc : ℕ → ℕ → Pix) (ox p q : ℕ)
    (h : ¬((x + ox) % U32MOD = p ∧ (y + oy) % U32MOD = q ∧ p < bw ∧ q < bh)) :
    compositePixStep bw bh ovpix x y oy acc ox p q = acc p q := by
  rw [compositePixStep]
  by_cases hg : bw ≤ (x + ox) % U32MOD ∨ bh ≤ (y + oy) % U32MOD
  · rw [if_pos hg]
  · rw [if_neg hg]
    push_neg at hg
    rw [if_neg]
    rintro ⟨rfl, rfl⟩
    exact h ⟨rfl, rfl, hg.1, hg.2⟩

theorem compositeRow_untouched (bw bh : ℕ) (ovpix : ℕ → ℕ → Pix)
    (x y oy p q : ℕ) :
    ∀ (l : List ℕ) (acc : ℕ → ℕ → Pix),
      (∀ ox ∈ l, ¬((x + ox) % U32MOD = p ∧ (y + oy) % U32MOD = q ∧ p < bw ∧ q < bh)) →
      l.foldl (compositePixStep bw bh ovpix x y oy) acc p q = acc p q := by
  intro l
  induction l with
  | nil => intro acc h; rfl
  | cons ox l ih =>
    intro acc h
    rw [List.foldl_cons]
    rw [ih _ (fun o ho => h o (List.mem_cons_of_mem ox ho))]
    exact compositePixStep_untouched bw bh ovpix x y oy acc ox p q
      (h ox (List.mem_cons_self ox l))

theorem compositeFold_untouched (bw bh ow : ℕ) (ovpix : ℕ → ℕ → Pix)
    (x y p q : ℕ) :
    ∀ (l : List ℕ) (acc : ℕ → ℕ → Pix),
      (∀ oy ∈ l, ∀ ox, ox < ow →
        ¬((x + ox) % U32MOD = p ∧ (y + oy) % U32MOD = q ∧ p < bw ∧ q < bh)) →
      l.foldl (compositeRowStep bw bh ow ovpix x y) acc p q = acc p q := by
  intro l
  induction l with
  | nil => intro acc h; rfl
  | cons oy l ih =>
    intro acc h
    rw [List.foldl_cons]
    rw [ih _ (fun o ho => h o (List.mem_cons_of_mem oy ho))]
    rw [compositeRowStep]
    exact compositeRow_untouched bw bh ovpix x y oy p q (List.range ow) acc
      (fun ox hox => h oy (List.mem_cons_self oy l) ox (List.mem_range.mp hox))

/-- C9: compositing is total (a Lean function — no failure path exists),
keeps the base dimensions, writes only through the in-bounds guard, and
leaves every base pixel that no in-bounds overlay pixel targets unchanged;
in particular every out-of-bounds coordinate is untouched, however far the
overlay hangs over the base. -/
theorem c9_composite_clipped (base overlay : Img) (x y p q : ℕ)
    (h : ∀ ox oy, ox < overlay.width → oy < overlay.height →
      ¬((x + ox) % U32MOD = p ∧ (y + oy) % U32MOD = q ∧
        p < base.width ∧ q < base.height)) :
    (compositeImage base overlay x y).width = base.width ∧
    (compositeImage base overlay x y).height = base.height ∧
    (compositeImage base overlay x y).pix p q = base.pix p q ∧
    (∀ p' q', base.width ≤ p' ∨ base.height ≤ q' →
      (compositeImage base overlay x y).pix p' q' = base.pix p' q') := by
  refine ⟨rfl, rfl, ?_, ?_⟩
  · rw [compositeImage]
    exact compositeFold_untouched base.width base.height overlay.width overlay.pix
      x y p q (List.range overlay.height) base.pix
      (fun oy hoy ox hox => h ox oy hox (List.mem_range.mp hoy))
  · intro p' q' hout
    rw [compositeImage]
    refine compositeFold_untouched base.width base.height overlay.width overlay.pix
      x y p' q' (List.range overlay.height) base.pix ?_
    rintro oy hoy ox hox ⟨h1, h2, h3, h4⟩
    rcases hout with ho | ho
    · omega
    · omega

/-- A 1×1 base image and a 1×1 overlay placed wholly outside it. -/
def c9base : Img := ⟨1, 1, fun _ _ => ⟨1, 2, 3, 4⟩⟩

/-- Overlay for the C9 witness. -/
def c9overlay : Img := ⟨1, 1, fun _ _ => ⟨9, 9, 9, 255⟩⟩

/-- Witness for C9: an overlay placed at x = 5 entirely misses a 1×1 base;
the base pixel is unchanged and no error occurs. -/
theorem c9_witness :
    (∀ ox oy, ox < c9overlay.width → oy < c9overlay.height →
      ¬((5 + ox) % U32MOD = 0 ∧ (0 + oy) % U32MOD = 0 ∧
        0 < c9base.width ∧ 0 < c9base.height)) ∧
    (compositeImage c9base c9overlay 5 0).pix 0 0 = c9base.pix 0 0 ∧
    c9base.pix 0 0 = ⟨1, 2, 3, 4⟩ := by
  have hh : ∀ ox oy, ox < c9overlay.width → oy < c9overlay.height →
      ¬((5 + ox) % U32MOD = 0 ∧ (0 + oy) % U32MOD = 0 ∧
        0 < c9base.width ∧ 0 < c9base.height) := by
    intro ox oy hx hy hc
    simp only [c9overlay] at hx hy
    rw [U32MOD] at hc
    omega
  exact ⟨hh, (c9_composite_clipped c9base c9overlay 5 0 0 0 hh).2.2.1, rfl⟩

/-- C10: the rendered QR geometry depends on the stamp's `width` and the
minimum of the two axis scale factors — `size = (width * min(scale_x,
scale_y)) as u32` — and the stamp's `height` field is never read: replacing
it changes no output pixel of `render_qr_stamp`. -/
theorem c10_qr_ignores_height :
    ∀ (qrEnc : String → List Char → ℕ × (ℕ → ℕ → Bool)) (img : Img)
      (s : QrCodeStamp) (record : List (List Char × List Char))
      (scaleX scaleY h' : ℚ),
      renderQrStampSize s scaleX scaleY = rustAsU32 (s.width * min scaleX scaleY) ∧
      renderQrStamp qrEnc img { s with height := h' } record scaleX scaleY
        = renderQrStamp qrEnc img s record scaleX scaleY := by
  intro qrEnc img s record scaleX scaleY h'
  exact ⟨rfl, rfl⟩

end SerialStamp
